import Mathlib

/-!
Shallow embedding of the dynamic-array container in
`src/simple-vector/simple_vector.h` (`SimpleVector<Type>` over an
`ArrayPtr<Type>` buffer), together with theorems settling the
specification claims about it.

Element values are drawn from a type `α` with a designated default value
(`Inhabited α`); `default` stands for the C++ value `Type()`.  `size_t`
is modelled by `Nat` (the growth arithmetic involved never approaches
the `size_t` range, so wrap-around is irrelevant to the claims).  The
owned buffer (`ArrayPtr`) is modelled by the list of values held in its
allocated slots, so a `SimpleVector` state is the triple
(buffer contents, `size_` field, `capacity_` field).  Iterator arguments
(`Insert`/`Erase` positions) are modelled by their offset from `begin()`,
exactly the quantity `std::distance(cbegin(), pos)` the code itself
computes first.
-/

/-- State of a `SimpleVector<Type>`: the `ArrayPtr` buffer contents (one
list entry per allocated slot), the `size_` field and the `capacity_`
field (simple_vector.h lines 146-150). -/
structure SimpleVector (α : Type) where
  items_ : List α
  size_ : Nat
  capacity_ : Nat
deriving DecidableEq

namespace ArrayPtr

/-- Modelled from the spec: `ArrayPtr` is declared in `array_ptr.h`,
which is not among the provided sources.  Per spec §3/§4.1 the Buffer
created with count `n` allocates exactly `n` element slots; slots not
yet written by the container hold default values and are never read
through the public interface, so the model initialises them to
`default`. -/
def create (α : Type) [Inhabited α] (n : Nat) : List α :=
  List.replicate n default

end ArrayPtr

/-- Net effect on a destination buffer of
`std::copy(srcFirst, srcLast, dst + i)` / `std::move(...)`, and likewise
of `std::copy_backward`/`std::move_backward` targeting the window
`[i, i + src.length)`: slot `i + k` receives `src[k]`.  (The backward
variants traverse high-to-low, which is exactly what makes the
overlapping right-shift in `Insert` read each source slot before
overwriting it, so their net effect on the buffer is this same range
image of the original source values.) -/
def writeAt : List α → Nat → List α → List α
  | dst, _, [] => dst
  | dst, i, x :: xs => writeAt (dst.set i x) (i + 1) xs

/-- The loop `for (i = lo; i < lo + k; ++i) items[i] = std::move(Type());`
used by `Resize` (simple_vector.h lines 305-307 and 314-316). -/
def writeDefaultsFrom [Inhabited α] : List α → Nat → Nat → List α
  | l, _, 0 => l
  | l, i, k + 1 => writeDefaultsFrom (l.set i default) (i + 1) k

namespace SimpleVector

variable {α : Type}

/-- `GetSize` (lines 215-218). -/
def GetSize (v : SimpleVector α) : Nat := v.size_

/-- `GetCapacity` (lines 220-223). -/
def GetCapacity (v : SimpleVector α) : Nat := v.capacity_

/-- `IsEmpty` (lines 225-228). -/
def IsEmpty (v : SimpleVector α) : Bool := v.size_ == 0

/-- The element sequence spanned by `begin() .. end()`
(`end() = items_.Get() + size_`, lines 230-258): the live elements at
logical positions `[0, size_)`. -/
def liveElems (v : SimpleVector α) : List α := v.items_.take v.size_

/-- Default constructor (line 31): `size_ = capacity_ = 0`, no storage. -/
def defaultCtor : SimpleVector α := ⟨[], 0, 0⟩

/-- Fill constructor `SimpleVector(size, value)` (lines 152-159):
allocates `size` slots and fills them all with `value`.  (The rvalue
overload at lines 161-172 produces the same state value-wise.) -/
def mkFill [Inhabited α] (size : Nat) (value : α) : SimpleVector α :=
  ⟨List.replicate size value, size, size⟩

/-- `explicit SimpleVector(size)` (lines 174-177): delegates to the fill
constructor with `Type()`. -/
def mkDefault [Inhabited α] (size : Nat) : SimpleVector α :=
  mkFill size default

/-- `SimpleVector(std::initializer_list)` (lines 179-186). -/
def initList (init : List α) : SimpleVector α :=
  ⟨init, init.length, init.length⟩

/-- Copy constructor (lines 188-197): member initialisers set
`items_(other.GetSize())`, `size_(other.GetSize())`,
`capacity_(other.GetCapacity())`; the body builds `tmp =
SimpleVector(size_)`, copies `other.begin() .. other.end()` into
`tmp.begin()`, and swaps buffers, so the final buffer is `tmp`'s
(`other.GetSize()` slots holding the source's live elements) while the
`capacity_` field keeps `other.GetCapacity()`. -/
def copyCtor [Inhabited α] (other : SimpleVector α) : SimpleVector α :=
  { items_ := writeAt (mkDefault other.GetSize : SimpleVector α).items_ 0
                (other.items_.take other.size_),
    size_ := other.GetSize,
    capacity_ := other.GetCapacity }

/-- Move constructor (lines 199-208): allocates `items_(other.GetSize())`,
moves the source's live elements across with `std::move(other.begin(),
other.end(), begin())`, then zeroes the source's `size_` and `capacity_`
(the source keeps its own buffer).  Returns
(constructed vector, source afterwards). -/
def moveCtor [Inhabited α] (other : SimpleVector α) :
    SimpleVector α × SimpleVector α :=
  ({ items_ := writeAt (ArrayPtr.create α other.GetSize) 0
                 (other.items_.take other.size_),
     size_ := other.GetSize,
     capacity_ := other.GetCapacity },
   { other with size_ := 0, capacity_ := 0 })

/-- Move assignment (lines 344-351): `items_ = std::move(rhs.items_)`
(the `ArrayPtr` move transfers buffer ownership, leaving `rhs` without
storage), `size_ = std::move(rhs.size_)`, then `rhs.capacity_ = 0;
rhs.size_ = 0`.  The target's `capacity_` field is never assigned.
Returns (target afterwards, rhs afterwards). -/
def moveAssign (v rhs : SimpleVector α) : SimpleVector α × SimpleVector α :=
  ({ v with items_ := rhs.items_, size_ := rhs.size_ },
   { items_ := [], size_ := 0, capacity_ := 0 })

/-- The `std::out_of_range` message thrown by `At` (lines 272-292). -/
def outOfRangeMsg : String := "Index >= size!"

/-- `At(index)` (lines 272-292): throws `std::out_of_range` when
`index >= size_`, otherwise returns `items_[index]`.  `At` is `const`
up to the returned reference, so it is a pure function of the state. -/
def At [Inhabited α] (v : SimpleVector α) (index : Nat) : Except String α :=
  if v.size_ ≤ index then Except.error outOfRangeMsg
  else Except.ok (v.items_.getD index default)

/-- `Clear` (lines 294-297): zeroes `size_` only. -/
def Clear (v : SimpleVector α) : SimpleVector α :=
  { v with size_ := 0 }

/-- `Resize(new_size)` (lines 299-322).  When `new_size >= size_` and
`capacity_ >= new_size`, slots `[size_, new_size)` are overwritten with
`Type()`.  When `new_size >= size_` and `capacity_ < new_size`, a
temporary `SimpleVector(max(capacity_ * 2, new_size))` is built, the
live elements are moved into it, its `size_` is set to `new_size`, its
slots `[size_, new_size)` are overwritten with `Type()`, it is
move-assigned into `*this` (which leaves `capacity_` at its old value),
and `capacity_` is then patched to `max(capacity_ * 2, new_size)`.
In every path the final statement sets `size_ = new_size`. -/
def Resize [Inhabited α] (v : SimpleVector α) (new_size : Nat) :
    SimpleVector α :=
  if v.size_ ≤ new_size then
    if new_size ≤ v.capacity_ then
      { v with items_ := writeDefaultsFrom v.items_ v.size_ (new_size - v.size_),
               size_ := new_size }
    else
      let tmp0 : SimpleVector α := mkDefault (max (v.capacity_ * 2) new_size)
      let tmp1 : SimpleVector α :=
        { tmp0 with items_ := writeAt tmp0.items_ 0 (v.items_.take v.size_),
                    size_ := new_size }
      let tmp2 : SimpleVector α :=
        { tmp1 with items_ := writeDefaultsFrom tmp1.items_ v.size_ (new_size - v.size_) }
      let assigned := (moveAssign v tmp2).1
      { assigned with size_ := new_size,
                      capacity_ := max (assigned.capacity_ * 2) new_size }
  else
    { v with size_ := new_size }

/-- `Reserve(new_capacity)` (lines 324-332): when `new_capacity >
capacity_`, allocates a fresh `ArrayPtr(new_capacity)`, moves the live
elements into it, swaps it in and records the new capacity; otherwise a
no-op. -/
def Reserve [Inhabited α] (v : SimpleVector α) (new_capacity : Nat) :
    SimpleVector α :=
  if v.capacity_ < new_capacity then
    { v with items_ := writeAt (ArrayPtr.create α new_capacity) 0
                         (v.items_.take v.size_),
             capacity_ := new_capacity }
  else v

/-- `swap` (lines 445-450): exchanges buffer, `size_` and `capacity_`.
Returns the pair (this afterwards, other afterwards). -/
def swap (v other : SimpleVector α) : SimpleVector α × SimpleVector α :=
  (⟨other.items_, other.size_, other.capacity_⟩,
   ⟨v.items_, v.size_, v.capacity_⟩)

/-- `operator==` (lines 452-455): identity shortcut, else
`std::equal(lhs.begin(), lhs.end(), rhs.begin(), rhs.end())`, i.e.
equality of the two live element ranges.  (When the two operands are the
identical object the live ranges coincide, so the identity shortcut is
absorbed by range equality in this value-level model.) -/
def eqOp [DecidableEq α] (lhs rhs : SimpleVector α) : Bool :=
  decide (liveElems lhs = liveElems rhs)

/-- Copy assignment (lines 334-342): if `*this == rhs`, return
unchanged; otherwise copy-construct a temporary from `rhs` and swap it
into `*this`. -/
def copyAssign [Inhabited α] [DecidableEq α] (v rhs : SimpleVector α) :
    SimpleVector α :=
  if eqOp v rhs then v
  else
    let tmp := copyCtor rhs
    (swap v tmp).1

/-- `PushBack(item)` (lines 353-363): `Resize(size_ + 1)` then
`items_[size_ - 1] = item` at the new `size_`.  (The rvalue overload is
value-wise identical.) -/
def PushBack [Inhabited α] (v : SimpleVector α) (item : α) : SimpleVector α :=
  let r := Resize v (v.size_ + 1)
  { r with items_ := r.items_.set (r.size_ - 1) item }

/-- `Insert(pos, value)` (lines 365-390), with `pos` given by its offset
`diffb = std::distance(cbegin(), pos)`.  Full buffer with zero capacity
delegates to `PushBack`; full buffer otherwise builds an
`ArrayPtr(capacity_ * 2)`, copies the prefix `[0, diffb)`, writes the
value at `diffb`, copies the suffix `[diffb, size_)` backward into
`[diffb + 1, size_ + 1)`, and adopts the new buffer with doubled
capacity; with spare capacity the suffix is shifted one slot right in
place (backward copy into `end() + 1`) and the value written at `diffb`.
(Line 386 writes the in-place destination as `items_.Get() +
std::next(this->end())`; it is modelled as the evident `std::next(end())`
destination, which is how the rvalue overload at line 413 writes it.) -/
def Insert [Inhabited α] (v : SimpleVector α) (diffb : Nat) (value : α) :
    SimpleVector α :=
  if v.capacity_ ≤ v.size_ then
    if v.capacity_ = 0 then
      PushBack v value
    else
      let tmp := ArrayPtr.create α (v.capacity_ * 2)
      let tmp1 := writeAt tmp 0 (v.items_.take diffb)
      let tmp2 := tmp1.set diffb value
      let tmp3 := writeAt tmp2 (diffb + 1) ((v.items_.take v.size_).drop diffb)
      { items_ := tmp3, size_ := v.size_ + 1, capacity_ := v.capacity_ * 2 }
  else
    let shifted := writeAt v.items_ (diffb + 1) ((v.items_.take v.size_).drop diffb)
    { v with items_ := shifted.set diffb value, size_ := v.size_ + 1 }

/-- `PopBack` (lines 419-423): decrements `size_` (precondition: not
empty). -/
def PopBack (v : SimpleVector α) : SimpleVector α :=
  { v with size_ := v.size_ - 1 }

/-- `Erase(pos)` (lines 425-434), with `pos` given by its offset
`distance = pos - cbegin()`: shifts `[distance + 1, size_)` one slot
left via `std::copy(pos_ + 1, end(), pos_)` and decrements `size_`.
(The `Iterator` overload at lines 436-443 is value-wise identical.) -/
def Erase (v : SimpleVector α) (distance : Nat) : SimpleVector α :=
  { v with items_ := writeAt v.items_ distance
                       ((v.items_.take v.size_).drop (distance + 1)),
           size_ := v.size_ - 1 }

/-- The container's representation invariant (spec §3): `size_ ≤
capacity_`, and the buffer really holds `capacity_` allocated slots. -/
def WF (v : SimpleVector α) : Prop :=
  v.size_ ≤ v.capacity_ ∧ v.items_.length = v.capacity_

instance (v : SimpleVector α) : Decidable (WF v) :=
  decidable_of_iff (v.size_ ≤ v.capacity_ ∧ v.items_.length = v.capacity_)
    Iff.rfl

/-- Property aggregate for claim C3: the three `Resize` regimes
(truncation, fill within capacity, growth). -/
def ResizeClaim [Inhabited α] (v : SimpleVector α) (n : Nat) : Prop :=
  (n < v.size_ → Resize v n = { v with size_ := n }) ∧
  (v.size_ ≤ n → n ≤ v.capacity_ →
    (Resize v n).size_ = n ∧ (Resize v n).capacity_ = v.capacity_ ∧
    (Resize v n).items_.take v.size_ = v.items_.take v.size_ ∧
    ((Resize v n).items_.take n).drop v.size_ =
      List.replicate (n - v.size_) default) ∧
  (v.capacity_ < n →
    (Resize v n).size_ = n ∧
    (Resize v n).capacity_ = max (2 * v.capacity_) n ∧
    (Resize v n).items_.take v.size_ = v.items_.take v.size_ ∧
    ((Resize v n).items_.take n).drop v.size_ =
      List.replicate (n - v.size_) default)

/-- Property aggregate for claim C4: `PushBack` appends the value,
increments the size, and follows the doubling growth policy. -/
def PushBackClaim [Inhabited α] (v : SimpleVector α) (x : α) : Prop :=
  (PushBack v x).size_ = v.size_ + 1 ∧
  liveElems (PushBack v x) = liveElems v ++ [x] ∧
  (v.size_ = v.capacity_ → 0 < v.capacity_ →
    (PushBack v x).capacity_ = 2 * v.capacity_) ∧
  (v.capacity_ = 0 → (PushBack v x).capacity_ = 1) ∧
  (v.size_ < v.capacity_ → (PushBack v x).capacity_ = v.capacity_)

/-- Property aggregate for claim C5: `At` fails exactly on indices at or
beyond the size and otherwise returns the live element at the index. -/
def AtClaim [Inhabited α] (v : SimpleVector α) (i : Nat) : Prop :=
  ((∃ e, At v i = Except.error e) ↔ v.size_ ≤ i) ∧
  (i < v.size_ → At v i = Except.ok ((liveElems v).getD i default))

/-- Property aggregate for claim C6: copy assignment makes the target
compare equal to the source, and equal operands (by value) are returned
unchanged. -/
def CopyAssignClaim [Inhabited α] [DecidableEq α] (a b : SimpleVector α) : Prop :=
  eqOp (copyAssign a b) b = true ∧
  (eqOp a b = true → copyAssign a b = a)

/-- Property aggregate for claim C7: `Insert` then `Erase` at the same
offset restores the live sequence and size, and with spare capacity
`Insert` shifts the suffix right in place. -/
def InsertEraseClaim [Inhabited α] (v : SimpleVector α) (d : Nat) (x : α) : Prop :=
  (liveElems (Erase (Insert v d x) d) = liveElems v ∧
   (Erase (Insert v d x) d).size_ = v.size_) ∧
  (v.size_ < v.capacity_ →
    (Insert v d x).size_ = v.size_ + 1 ∧
    (Insert v d x).capacity_ = v.capacity_ ∧
    (Insert v d x).items_.length = v.items_.length ∧
    liveElems (Insert v d x) =
      (liveElems v).take d ++ x :: (liveElems v).drop d ∧
    (Insert v d x).items_.drop (v.size_ + 1) = v.items_.drop (v.size_ + 1))

/-- Property aggregate for claim C8: `PushBack` then `PopBack` restores
the size and the live element sequence. -/
def PushPopClaim [Inhabited α] (v : SimpleVector α) (x : α) : Prop :=
  (PopBack (PushBack v x)).size_ = v.size_ ∧
  liveElems (PopBack (PushBack v x)) = liveElems v

/-- Property aggregate for claim C9: move construction and move
assignment empty the source and give the destination the source`s former
size and live sequence. -/
def MoveClaim [Inhabited α] (a b : SimpleVector α) : Prop :=
  ((moveCtor b).2.size_ = 0 ∧ (moveCtor b).2.capacity_ = 0 ∧
   (moveCtor b).1.size_ = b.size_ ∧
   liveElems (moveCtor b).1 = liveElems b) ∧
  ((moveAssign a b).2.size_ = 0 ∧ (moveAssign a b).2.capacity_ = 0 ∧
   (moveAssign a b).1.size_ = b.size_ ∧
   liveElems (moveAssign a b).1 = liveElems b)

/-- Property aggregate for claim C10: inserting at the one-past-end
offset coincides with `PushBack` as a whole-state equality. -/
def InsertEndClaim [Inhabited α] (v : SimpleVector α) (x : α) : Prop :=
  Insert v v.size_ x = PushBack v x

end SimpleVector

/-! ### Generic buffer-write and list lemmas -/

theorem length_writeAt (src : List α) :
    ∀ (dst : List α) (i : Nat), (writeAt dst i src).length = dst.length := by
  induction src with
  | nil => intro dst i; rfl
  | cons x xs ih =>
    intro dst i
    simp [writeAt, ih]

theorem writeAt_eq (src : List α) :
    ∀ (dst : List α) (i : Nat), i + src.length ≤ dst.length →
      writeAt dst i src = dst.take i ++ src ++ dst.drop (i + src.length) := by
  induction src with
  | nil =>
    intro dst i h
    simp [writeAt]
  | cons x xs ih =>
    intro dst i h
    have hlen : xs.length + 1 = (x :: xs).length := by simp
    have hi : i < dst.length := by
      simp only [List.length_cons] at h; omega
    have hstep : (i + 1) + xs.length ≤ (dst.set i x).length := by
      simp only [List.length_set, List.length_cons] at h ⊢; omega
    rw [writeAt, ih (dst.set i x) (i + 1) hstep,
        List.set_eq_take_cons_drop x hi]
    have h1 : ((dst.take i ++ x :: dst.drop (i + 1)).take (i + 1)) =
        dst.take i ++ [x] := by
      have : dst.take i ++ x :: dst.drop (i + 1) =
          (dst.take i ++ [x]) ++ dst.drop (i + 1) := by simp
      rw [this, List.take_left']
      simp [List.length_take]
      omega
    have h2 : ((dst.take i ++ x :: dst.drop (i + 1)).drop (i + 1 + xs.length)) =
        dst.drop (i + (xs.length + 1)) := by
      have hsplit : dst.take i ++ x :: dst.drop (i + 1) =
          (dst.take i ++ [x]) ++ dst.drop (i + 1) := by simp
      have hl : (dst.take i ++ [x]).length = i + 1 := by
        simp [List.length_take]; omega
      rw [hsplit, ← hl, List.drop_append, List.drop_drop]
      congr 1
      omega
    rw [h1, h2]
    simp

theorem writeDefaultsFrom_eq_writeAt [Inhabited α] :
    ∀ (l : List α) (i k : Nat),
      writeDefaultsFrom l i k = writeAt l i (List.replicate k default) := by
  intro l i k
  induction k generalizing l i with
  | zero => rfl
  | succ k ih => simp [writeDefaultsFrom, writeAt, List.replicate_succ, ih]

theorem set_eq_writeAt (l : List α) (i : Nat) (x : α) :
    l.set i x = writeAt l i [x] := rfl

theorem writeAt_pad_absorb (L : List α) (a : α) (i r k : Nat)
    (hi : L.length = i) (hk : k ≤ r) :
    writeAt (L ++ List.replicate r a) i (List.replicate k a) =
      L ++ List.replicate r a := by
  subst hi
  rw [writeAt_eq _ _ _ (by simp; omega)]
  rw [List.take_left' rfl, List.length_replicate, List.drop_append,
      List.drop_replicate, List.append_assoc]
  congr 1
  rw [← List.replicate_add]
  congr 1
  omega

theorem set_append_cons (A B : List α) (y x : α) (i : Nat) (hi : A.length = i) :
    (A ++ y :: B).set i x = A ++ x :: B := by
  subst hi
  rw [List.set_append_right _ _ (Nat.le_refl _)]
  simp

theorem take_append_of_length (A B : List α) (i k : Nat) (hi : A.length = i) :
    (A ++ B).take (i + k) = A ++ B.take k := by
  subst hi
  exact List.take_append k

namespace SimpleVector

variable {α : Type} [Inhabited α]

/-! ### Characterisation of the operations under the invariant -/

theorem Resize_shrink (v : SimpleVector α) (n : Nat) (h : n < v.size_) :
    Resize v n = { v with size_ := n } := by
  unfold Resize
  rw [if_neg (by omega)]

theorem Resize_fit (v : SimpleVector α) (n : Nat) (hs : v.size_ ≤ n)
    (hc : n ≤ v.capacity_) (hlen : v.items_.length = v.capacity_) :
    Resize v n = { v with
      items_ := v.items_.take v.size_ ++ List.replicate (n - v.size_) default
                  ++ v.items_.drop n,
      size_ := n } := by
  unfold Resize
  rw [if_pos hs, if_pos hc]
  have hitems : writeDefaultsFrom v.items_ v.size_ (n - v.size_) =
      v.items_.take v.size_ ++ List.replicate (n - v.size_) default
        ++ v.items_.drop n := by
    rw [writeDefaultsFrom_eq_writeAt,
        writeAt_eq _ _ _ (by simp [List.length_replicate]; omega)]
    simp only [List.length_replicate]
    have : v.size_ + (n - v.size_) = n := by omega
    rw [this]
  rw [hitems]

theorem Resize_grow (v : SimpleVector α) (n : Nat) (hs : v.size_ ≤ n)
    (hc : v.capacity_ < n) (hlen : v.size_ ≤ v.items_.length) :
    Resize v n =
      { items_ := v.items_.take v.size_
          ++ List.replicate (max (v.capacity_ * 2) n - v.size_) default,
        size_ := n,
        capacity_ := max (v.capacity_ * 2) n } := by
  have hnM : n ≤ max (v.capacity_ * 2) n := Nat.le_max_right _ _
  have hLlen : (v.items_.take v.size_).length = v.size_ := by
    simp [List.length_take]; omega
  unfold Resize
  rw [if_pos hs, if_neg (by omega)]
  dsimp only [moveAssign, mkDefault, mkFill]
  have h1 : writeAt (List.replicate (max (v.capacity_ * 2) n) (default : α)) 0
      (v.items_.take v.size_) =
      v.items_.take v.size_
        ++ List.replicate (max (v.capacity_ * 2) n - v.size_) default := by
    rw [writeAt_eq _ _ _ (by simp [hLlen]; omega)]
    simp [hLlen, List.drop_replicate]
  have h2 : writeDefaultsFrom
      (v.items_.take v.size_
        ++ List.replicate (max (v.capacity_ * 2) n - v.size_) (default : α))
      v.size_ (n - v.size_) =
      v.items_.take v.size_
        ++ List.replicate (max (v.capacity_ * 2) n - v.size_) default := by
    rw [writeDefaultsFrom_eq_writeAt, writeAt_pad_absorb _ _ _ _ _ hLlen (by omega)]
  rw [h1, h2]

theorem PushBack_lt (v : SimpleVector α) (x : α) (h : v.size_ < v.capacity_)
    (hlen : v.items_.length = v.capacity_) :
    PushBack v x = { v with
      items_ := v.items_.take v.size_ ++ x :: v.items_.drop (v.size_ + 1),
      size_ := v.size_ + 1 } := by
  unfold PushBack
  rw [Resize_fit v (v.size_ + 1) (by omega) (by omega) hlen]
  dsimp only
  congr 1
  have hrep : v.size_ + 1 - v.size_ = 1 := by omega
  rw [Nat.add_sub_cancel, hrep, List.replicate_one, List.append_assoc,
      List.singleton_append,
      set_append_cons _ _ _ _ _ (by simp [List.length_take]; omega)]

theorem PushBack_full (v : SimpleVector α) (x : α)
    (hsz : v.size_ = v.capacity_) (hlen : v.size_ ≤ v.items_.length) :
    PushBack v x = {
      items_ := v.items_.take v.size_ ++ x ::
        List.replicate (max (v.capacity_ * 2) (v.size_ + 1) - v.size_ - 1) default,
      size_ := v.size_ + 1,
      capacity_ := max (v.capacity_ * 2) (v.size_ + 1) } := by
  unfold PushBack
  rw [Resize_grow v (v.size_ + 1) (by omega) (by omega) hlen]
  dsimp only
  congr 1
  have hM : v.size_ + 1 ≤ max (v.capacity_ * 2) (v.size_ + 1) :=
    Nat.le_max_right _ _
  have hrep : max (v.capacity_ * 2) (v.size_ + 1) - v.size_ =
      (max (v.capacity_ * 2) (v.size_ + 1) - v.size_ - 1) + 1 := by omega
  rw [Nat.add_sub_cancel, hrep, List.replicate_succ,
      set_append_cons _ _ _ _ _ (by simp [List.length_take]; omega)]
  simp

theorem Insert_cap_zero (v : SimpleVector α) (d : Nat) (x : α)
    (h : v.capacity_ = 0) : Insert v d x = PushBack v x := by
  unfold Insert
  rw [if_pos (by omega), if_pos h]

theorem Insert_spare (v : SimpleVector α) (d : Nat) (x : α)
    (h : v.size_ < v.capacity_) (hlen : v.items_.length = v.capacity_)
    (hd : d ≤ v.size_) :
    Insert v d x = { v with
      items_ := v.items_.take d ++ x ::
        ((v.items_.take v.size_).drop d ++ v.items_.drop (v.size_ + 1)),
      size_ := v.size_ + 1 } := by
  unfold Insert
  rw [if_neg (by omega)]
  dsimp only
  congr 1
  have hsrc : ((v.items_.take v.size_).drop d).length = v.size_ - d := by
    simp [List.length_drop, List.length_take]; omega
  rw [writeAt_eq _ _ _ (by rw [hsrc]; omega), hsrc]
  have h1 : d + 1 + (v.size_ - d) = v.size_ + 1 := by omega
  rw [h1]
  have hd2 : d < v.items_.length := by omega
  rw [List.take_succ, List.getElem?_eq_getElem hd2]
  dsimp only [Option.toList_some]
  rw [List.append_assoc, List.append_assoc, List.singleton_append,
      set_append_cons _ _ _ _ _ (by simp [List.length_take]; omega)]

theorem Insert_full (v : SimpleVector α) (d : Nat) (x : α)
    (hsz : v.size_ = v.capacity_) (hc : 0 < v.capacity_)
    (hlen : v.size_ ≤ v.items_.length) (hd : d ≤ v.size_) :
    Insert v d x = {
      items_ := v.items_.take d ++ x ::
        ((v.items_.take v.size_).drop d ++
          List.replicate (v.capacity_ * 2 - v.size_ - 1) default),
      size_ := v.size_ + 1,
      capacity_ := v.capacity_ * 2 } := by
  unfold Insert
  rw [if_pos (by omega), if_neg (by omega)]
  dsimp only [ArrayPtr.create]
  congr 1
  have hdlen : (v.items_.take d).length = d := by
    simp [List.length_take]; omega
  have h1 : writeAt (List.replicate (v.capacity_ * 2) (default : α)) 0
      (v.items_.take d) =
      v.items_.take d ++ List.replicate (v.capacity_ * 2 - d) default := by
    rw [writeAt_eq _ _ _ (by simp [hdlen]; omega)]
    simp [hdlen, List.drop_replicate]
  rw [h1]
  have hrep : v.capacity_ * 2 - d = (v.capacity_ * 2 - d - 1) + 1 := by omega
  rw [hrep, List.replicate_succ, set_append_cons _ _ _ _ _ hdlen]
  have hsrc : ((v.items_.take v.size_).drop d).length = v.size_ - d := by
    simp [List.length_drop, List.length_take]; omega
  have hsplit : v.items_.take d ++ x ::
      List.replicate (v.capacity_ * 2 - d - 1) default =
      (v.items_.take d ++ [x]) ++
        List.replicate (v.capacity_ * 2 - d - 1) default := by
    simp
  rw [hsplit, writeAt_eq _ _ _ (by simp [hdlen, hsrc]; omega), hsrc]
  have hxlen : (v.items_.take d ++ [x]).length = d + 1 := by
    simp [hdlen]
  rw [List.take_left' hxlen]
  have hdrop : d + 1 + (v.size_ - d) = (v.items_.take d ++ [x]).length +
      (v.size_ - d) := by
    rw [hxlen]
  rw [hdrop, List.drop_append, List.drop_replicate]
  have hcount : v.capacity_ * 2 - d - 1 - (v.size_ - d) =
      v.capacity_ * 2 - v.size_ - 1 := by omega
  rw [hcount]
  simp

omit [Inhabited α] in
theorem Erase_eq (v : SimpleVector α) (d : Nat) (hd : d < v.size_)
    (hlen : v.size_ ≤ v.items_.length) :
    Erase v d = { v with
      items_ := v.items_.take d ++
        ((v.items_.take v.size_).drop (d + 1) ++ v.items_.drop (v.size_ - 1)),
      size_ := v.size_ - 1 } := by
  unfold Erase
  congr 1
  have hsrc : ((v.items_.take v.size_).drop (d + 1)).length =
      v.size_ - d - 1 := by
    simp [List.length_drop, List.length_take]; omega
  rw [writeAt_eq _ _ _ (by rw [hsrc]; omega), hsrc]
  have h1 : d + (v.size_ - d - 1) = v.size_ - 1 := by omega
  rw [h1, List.append_assoc]

theorem PushBack_props (v : SimpleVector α) (x : α) (hwf : WF v) :
    (PushBack v x).size_ = v.size_ + 1 ∧
    WF (PushBack v x) ∧
    liveElems (PushBack v x) = liveElems v ++ [x] ∧
    (v.size_ < v.capacity_ → (PushBack v x).capacity_ = v.capacity_) ∧
    (v.capacity_ ≤ v.size_ →
      (PushBack v x).capacity_ = max (v.capacity_ * 2) (v.size_ + 1)) := by
  obtain ⟨h1, h2⟩ := hwf
  have hA : (v.items_.take v.size_).length = v.size_ := by simp; omega
  by_cases hlt : v.size_ < v.capacity_
  · rw [PushBack_lt v x hlt h2]
    refine ⟨rfl, ⟨by dsimp; omega, ?_⟩, ?_, fun _ => rfl, fun h => by omega⟩
    · dsimp only
      simp [List.length_append, hA, List.length_drop]
      omega
    · dsimp only [liveElems]
      rw [show v.size_ + 1 = v.size_ + 1 from rfl,
          take_append_of_length _ _ _ 1 hA]
      simp [liveElems]
  · have hsz : v.size_ = v.capacity_ := by omega
    rw [PushBack_full v x hsz (by omega)]
    have hM : v.size_ + 1 ≤ max (v.capacity_ * 2) (v.size_ + 1) :=
      Nat.le_max_right _ _
    refine ⟨rfl, ⟨by dsimp; omega, ?_⟩, ?_, fun h => by omega, fun _ => rfl⟩
    · dsimp only
      simp [List.length_append, hA]
      omega
    · dsimp only [liveElems]
      rw [take_append_of_length _ _ _ 1 hA]
      simp [liveElems]

theorem Insert_props (v : SimpleVector α) (d : Nat) (x : α) (hwf : WF v)
    (hd : d ≤ v.size_) :
    (Insert v d x).size_ = v.size_ + 1 ∧
    WF (Insert v d x) ∧
    liveElems (Insert v d x) =
      (liveElems v).take d ++ x :: (liveElems v).drop d := by
  obtain ⟨h1, h2⟩ := hwf
  have hA : (v.items_.take d).length = d := by simp; omega
  have hdrop : ((v.items_.take v.size_).drop d).length = v.size_ - d := by
    simp; omega
  by_cases hc0 : v.capacity_ = 0
  · have hs0 : v.size_ = 0 := by omega
    have hd0 : d = 0 := by omega
    rw [Insert_cap_zero v d x hc0]
    obtain ⟨p1, p2, p3, _⟩ := PushBack_props v x ⟨h1, h2⟩
    subst hd0
    refine ⟨p1, p2, ?_⟩
    rw [p3]
    simp [liveElems, hs0]
  · by_cases hlt : v.size_ < v.capacity_
    · rw [Insert_spare v d x hlt h2 hd]
      refine ⟨rfl, ⟨by dsimp; omega, ?_⟩, ?_⟩
      · dsimp only
        simp [List.length_append, hA, hdrop]
        omega
      · dsimp only [liveElems]
        rw [show v.size_ + 1 = d + (v.size_ - d + 1) from by omega,
            take_append_of_length _ _ _ _ hA, List.take_succ_cons,
            List.take_left' hdrop]
        rw [List.take_take, Nat.min_eq_left hd]
    · have hsz : v.size_ = v.capacity_ := by omega
      rw [Insert_full v d x hsz (by omega) (by omega) hd]
      refine ⟨rfl, ⟨by dsimp; omega, ?_⟩, ?_⟩
      · dsimp only
        simp [List.length_append, hA, hdrop]
        omega
      · dsimp only [liveElems]
        rw [show v.size_ + 1 = d + (v.size_ - d + 1) from by omega,
            take_append_of_length _ _ _ _ hA, List.take_succ_cons,
            List.take_left' hdrop]
        rw [List.take_take, Nat.min_eq_left hd]

omit [Inhabited α] in
theorem Erase_props (v : SimpleVector α) (d : Nat) (hwf : WF v)
    (hd : d < v.size_) :
    (Erase v d).size_ = v.size_ - 1 ∧
    (Erase v d).capacity_ = v.capacity_ ∧
    WF (Erase v d) ∧
    liveElems (Erase v d) =
      (liveElems v).take d ++ (liveElems v).drop (d + 1) := by
  obtain ⟨h1, h2⟩ := hwf
  have hA : (v.items_.take d).length = d := by simp; omega
  have hdrop1 : ((v.items_.take v.size_).drop (d + 1)).length =
      v.size_ - d - 1 := by
    simp; omega
  rw [Erase_eq v d hd (by omega)]
  refine ⟨rfl, rfl, ⟨by dsimp; omega, ?_⟩, ?_⟩
  · dsimp only
    simp [List.length_append, hA, hdrop1]
    omega
  · dsimp only [liveElems]
    rw [show v.size_ - 1 = d + (v.size_ - d - 1) from by omega,
        take_append_of_length _ _ _ _ hA, List.take_left' hdrop1]
    rw [List.take_take, Nat.min_eq_left (by omega)]

/-! ### The specification claims -/

/-- C1: the claimed invariant `size_ ≤ capacity_` is violated by move
assignment, which copies the source`s `size_` but never assigns the
target`s `capacity_` (simple_vector.h lines 344-351): move-assigning a
one-element vector into a default-constructed target leaves
`capacity_ = 0 < 1 = size_`. -/
theorem moveAssign_size_exceeds_capacity :
    ((moveAssign (defaultCtor : SimpleVector Nat) (mkFill 1 5)).1).capacity_ <
      ((moveAssign (defaultCtor : SimpleVector Nat) (mkFill 1 5)).1).size_ := by
  decide

/-- C2: for a source of size 1 and capacity 2, the copy constructor
produces a copy that compares equal to the source and whose allocated
buffer has exactly `source.GetSize` slots, but whose observable
`GetCapacity` is the source`s original capacity 2, not the source`s
logical size 1 (the `capacity_` field misrepresents the allocation,
simple_vector.h lines 188-197). -/
theorem copyCtor_capacity_not_source_size :
    (copyCtor (PopBack (initList [1, 2] : SimpleVector Nat))).GetCapacity = 2 ∧
    (PopBack (initList [1, 2] : SimpleVector Nat)).GetSize = 1 ∧
    (copyCtor (PopBack (initList [1, 2] : SimpleVector Nat))).items_.length = 1 ∧
    liveElems (copyCtor (PopBack (initList [1, 2] : SimpleVector Nat))) =
      liveElems (PopBack (initList [1, 2] : SimpleVector Nat)) := by
  decide

/-- C3: for a well-formed container, `Resize n` with `n < size_`
only truncates; with `size_ ≤ n ≤ capacity_` it sets the size, keeps
the capacity and the first `size_` elements, and fills `[size_, n)`
with default values; with `n > capacity_` it additionally grows the
capacity to `max (2 * capacity_) n`. -/
theorem Resize_spec (v : SimpleVector α) (n : Nat) (hwf : WF v) :
    ResizeClaim v n := by
  obtain ⟨h1, h2⟩ := hwf
  have hA : (v.items_.take v.size_).length = v.size_ := by simp; omega
  refine ⟨fun h => Resize_shrink v n h, fun hs hc => ?_, fun hc => ?_⟩
  · rw [Resize_fit v n hs hc h2]
    have hrep : (List.replicate (n - v.size_) (default : α)).length =
        n - v.size_ := List.length_replicate _ _
    refine ⟨rfl, rfl, ?_, ?_⟩
    · dsimp only
      rw [List.append_assoc, List.take_left' hA]
    · dsimp only
      have ht := take_append_of_length (v.items_.take v.size_)
        (List.replicate (n - v.size_) (default : α) ++ v.items_.drop n)
        v.size_ (n - v.size_) hA
      rw [show v.size_ + (n - v.size_) = n from by omega] at ht
      rw [List.append_assoc, ht, List.take_left' hrep, List.drop_left' hA]
  · rw [Resize_grow v n (by omega) hc (by omega)]
    have hnM : n ≤ max (v.capacity_ * 2) n := Nat.le_max_right _ _
    refine ⟨rfl, by dsimp only; rw [Nat.mul_comm], ?_, ?_⟩
    · dsimp only
      rw [List.take_left' hA]
    · dsimp only
      have ht := take_append_of_length (v.items_.take v.size_)
        (List.replicate (max (v.capacity_ * 2) n - v.size_) (default : α))
        v.size_ (n - v.size_) hA
      rw [show v.size_ + (n - v.size_) = n from by omega] at ht
      rw [ht, List.take_replicate, List.drop_left' hA]
      congr 1
      omega

theorem Resize_spec_witness :
    WF (initList [1, 2, 3] : SimpleVector Nat) ∧
    ResizeClaim (initList [1, 2, 3] : SimpleVector Nat) 5 :=
  ⟨by decide, Resize_spec (initList [1, 2, 3]) 5 (by decide)⟩

/-- C4: for a well-formed container, `PushBack` increments the size
by one and appends the value to the live sequence; a full container
with positive capacity `c` ends with capacity `2 * c`, a zero-capacity
container ends with capacity 1, and spare capacity is left
unchanged. -/
theorem PushBack_spec (v : SimpleVector α) (x : α) (hwf : WF v) :
    PushBackClaim v x := by
  obtain ⟨ps, _, plive, pcaplt, pcapfull⟩ := PushBack_props v x hwf
  obtain ⟨h1, h2⟩ := hwf
  refine ⟨ps, plive, fun hsz hpos => ?_, fun hc0 => ?_, pcaplt⟩
  · rw [pcapfull (by omega)]
    rw [Nat.max_eq_left (by omega), Nat.mul_comm]
  · rw [pcapfull (by omega)]
    have hs0 : v.size_ = 0 := by omega
    rw [hc0, hs0]
    simp

theorem PushBack_spec_witness :
    WF (initList [1, 2, 3] : SimpleVector Nat) ∧
    PushBackClaim (initList [1, 2, 3] : SimpleVector Nat) 4 :=
  ⟨by decide, PushBack_spec (initList [1, 2, 3]) 4 (by decide)⟩

/-- C5: `At i` returns an out-of-range error exactly when
`i ≥ size_`, and for `i < size_` returns the live element at position
`i`; being a `const` member it never changes the container, and it is
the only operation modelled with an error outcome. -/
theorem At_spec (v : SimpleVector α) (i : Nat) : AtClaim v i := by
  constructor
  · constructor
    · rintro ⟨e, he⟩
      by_contra h
      unfold At at he
      rw [if_neg h] at he
      exact absurd he (by simp)
    · intro h
      refine ⟨outOfRangeMsg, ?_⟩
      unfold At
      rw [if_pos h]
  · intro h
    unfold At
    rw [if_neg (by omega)]
    congr 1
    simp only [liveElems, List.getD_eq_getElem?_getD,
      List.getElem?_take_of_lt h]

/-- C6: copy assignment makes the target compare equal (by
`operator==`) to the source, and when the operands already compare
equal as value sequences — identical instance or not — the target is
returned with buffer, size and capacity untouched. -/
theorem copyAssign_spec [DecidableEq α] (a b : SimpleVector α)
    (hb : b.size_ ≤ b.items_.length) : CopyAssignClaim a b := by
  have hlive : liveElems (copyCtor b) = liveElems b := by
    unfold copyCtor liveElems
    dsimp only [mkDefault, mkFill, GetSize, GetCapacity]
    have hlen : (b.items_.take b.size_).length = b.size_ := by simp; omega
    rw [writeAt_eq _ _ _ (by simp [hlen])]
    simp only [List.take_zero, List.nil_append, hlen, List.drop_replicate,
      Nat.sub_self, List.replicate_zero, List.append_nil, Nat.zero_add]
    rw [List.take_take, Nat.min_self]
  constructor
  · by_cases h : eqOp a b = true
    · unfold copyAssign
      rw [if_pos h]
      exact h
    · unfold copyAssign
      rw [if_neg h]
      dsimp only [swap]
      unfold eqOp
      simp only [decide_eq_true_eq]
      exact hlive
  · intro h
    unfold copyAssign
    rw [if_pos h]

theorem copyAssign_spec_witness :
    (PopBack (initList [1, 2, 3] : SimpleVector Nat)).size_ ≤
      (PopBack (initList [1, 2, 3] : SimpleVector Nat)).items_.length ∧
    CopyAssignClaim (initList [1, 2] : SimpleVector Nat)
      (PopBack (initList [1, 2, 3] : SimpleVector Nat)) :=
  ⟨by decide,
    copyAssign_spec (initList [1, 2]) (PopBack (initList [1, 2, 3]))
      (by decide)⟩

/-- C7: for a well-formed container and a valid offset, `Insert`
followed by `Erase` at the same offset restores the live element
sequence and the size, and with spare capacity `Insert` shifts the
suffix one slot right within the same buffer, writes the value at the
offset and increments the size. -/
theorem Insert_Erase_spec (v : SimpleVector α) (d : Nat) (x : α)
    (hwf : WF v) (hd : d ≤ v.size_) : InsertEraseClaim v d x := by
  obtain ⟨is, iwf, ilive⟩ := Insert_props v d x hwf hd
  obtain ⟨hw1, hw2⟩ := hwf
  have hlive : (liveElems v).length = v.size_ := by
    simp [liveElems]
    omega
  have hAd : ((liveElems v).take d).length = d := by
    simp [hlive]
    omega
  constructor
  · have hd' : d < (Insert v d x).size_ := by omega
    obtain ⟨es, _, _, elive⟩ := Erase_props (Insert v d x) d iwf hd'
    constructor
    · rw [elive, ilive, List.take_left' hAd]
      have hdrop := @List.drop_append _ ((liveElems v).take d)
        (x :: (liveElems v).drop d) 1
      rw [hAd] at hdrop
      rw [hdrop]
      simp only [List.drop_succ_cons, List.drop_zero]
      exact List.take_append_drop d (liveElems v)
    · omega
  · intro hlt
    refine ⟨is, ?_, ?_, ilive, ?_⟩
    · rw [Insert_spare v d x hlt hw2 hd]
    · rw [Insert_spare v d x hlt hw2 hd]
      dsimp only
      simp [List.length_append, List.length_take, List.length_drop]
      omega
    · rw [Insert_spare v d x hlt hw2 hd]
      dsimp only
      have hsplit : v.items_.take d ++ x ::
          ((v.items_.take v.size_).drop d ++ v.items_.drop (v.size_ + 1)) =
          (v.items_.take d ++ x :: (v.items_.take v.size_).drop d) ++
            v.items_.drop (v.size_ + 1) := by
        simp
      rw [hsplit, List.drop_left']
      simp [List.length_take, List.length_drop]
      omega

theorem Insert_Erase_spec_witness :
    (WF (PushBack (initList [1, 2, 3] : SimpleVector Nat) 4) ∧
      1 ≤ (PushBack (initList [1, 2, 3] : SimpleVector Nat) 4).size_) ∧
    InsertEraseClaim (PushBack (initList [1, 2, 3] : SimpleVector Nat) 4) 1 9 :=
  ⟨⟨by decide, by decide⟩,
    Insert_Erase_spec (PushBack (initList [1, 2, 3]) 4) 1 9
      (by decide) (by decide)⟩

/-- C8: for a well-formed container, `PushBack` followed by
`PopBack` restores the original size and the original live element
sequence. -/
theorem PushBack_PopBack_spec (v : SimpleVector α) (x : α) (hwf : WF v) :
    PushPopClaim v x := by
  obtain ⟨ps, _, plive, _⟩ := PushBack_props v x hwf
  obtain ⟨hw1, hw2⟩ := hwf
  have hlive : (liveElems v).length = v.size_ := by
    simp [liveElems]
    omega
  constructor
  · dsimp only [PopBack]
    omega
  · dsimp only [PopBack, liveElems]
    have hidx : (PushBack v x).size_ - 1 = v.size_ := by omega
    rw [hidx]
    have h1 : (PushBack v x).items_.take v.size_ =
        ((PushBack v x).items_.take (PushBack v x).size_).take v.size_ := by
      rw [List.take_take, Nat.min_eq_left (by omega)]
    rw [h1]
    have h2 : (PushBack v x).items_.take (PushBack v x).size_ =
        liveElems v ++ [x] := plive
    rw [h2, List.take_left' hlive]
    rfl

theorem PushBack_PopBack_spec_witness :
    WF (initList [1, 2, 3] : SimpleVector Nat) ∧
    PushPopClaim (initList [1, 2, 3] : SimpleVector Nat) 4 :=
  ⟨by decide, PushBack_PopBack_spec (initList [1, 2, 3]) 4 (by decide)⟩

/-- C9: move construction and move assignment leave the source with
`size_ = capacity_ = 0`, while the destination receives the source`s
former size and live element sequence. -/
theorem move_spec (a b : SimpleVector α) (hb : b.size_ ≤ b.items_.length) :
    MoveClaim a b := by
  refine ⟨⟨rfl, rfl, rfl, ?_⟩, rfl, rfl, rfl, rfl⟩
  dsimp only [moveCtor, liveElems, ArrayPtr.create, GetSize, GetCapacity]
  have hlen : (b.items_.take b.size_).length = b.size_ := by simp; omega
  rw [writeAt_eq _ _ _ (by simp [hlen])]
  simp only [List.take_zero, List.nil_append, hlen, List.drop_replicate,
    Nat.sub_self, List.replicate_zero, List.append_nil, Nat.zero_add]
  rw [List.take_take, Nat.min_self]

theorem move_spec_witness :
    (initList [1, 2] : SimpleVector Nat).size_ ≤
      (initList [1, 2] : SimpleVector Nat).items_.length ∧
    MoveClaim (initList [7] : SimpleVector Nat) (initList [1, 2]) :=
  ⟨by decide, move_spec (initList [7]) (initList [1, 2]) (by decide)⟩

/-- C10: for a well-formed container, inserting at the one-past-end
offset produces exactly the same state — size, capacity and buffer —
as `PushBack` of the same value. -/
theorem Insert_end_spec (v : SimpleVector α) (x : α) (hwf : WF v) :
    InsertEndClaim v x := by
  obtain ⟨h1, h2⟩ := hwf
  unfold InsertEndClaim
  by_cases hc0 : v.capacity_ = 0
  · exact Insert_cap_zero v _ x hc0
  · by_cases hlt : v.size_ < v.capacity_
    · rw [Insert_spare v _ x hlt h2 (Nat.le_refl _), PushBack_lt v x hlt h2]
      congr 2
      simp [List.drop_take]
    · have hsz : v.size_ = v.capacity_ := by omega
      rw [Insert_full v _ x hsz (by omega) (by omega) (Nat.le_refl _),
          PushBack_full v x hsz (by omega)]
      have hmax : max (v.capacity_ * 2) (v.size_ + 1) = v.capacity_ * 2 := by
        apply Nat.max_eq_left
        omega
      rw [hmax]
      congr 2
      simp [List.drop_take]

theorem Insert_end_spec_witness :
    WF (PushBack (initList [1, 2] : SimpleVector Nat) 3) ∧
    InsertEndClaim (PushBack (initList [1, 2] : SimpleVector Nat) 3) 7 :=
  ⟨by decide, Insert_end_spec (PushBack (initList [1, 2]) 3) 7 (by decide)⟩

end SimpleVector
